import Mathlib

/-!
A shallow embedding of the package store and link-farm engine of `cget`
(file `cget/prefix.py`) together with theorems checking the specification
claims against it.

The embedding models the filesystem as a finite association list from
absolute paths (lists of components) to nodes (directory, regular file with
content, or symbolic link).  Functions of `cget/prefix.py` that only read
the filesystem (the specification resolver, recipe expansion, file parsing,
store-layout helpers and `list`) are embedded as pure functions of the
filesystem returning `Except Err`.  Functions that mutate the filesystem
(`install`, `ignore`, `link`, `unlink`, `remove`, `write_parent` and the
utility helpers they call) run in a state monad `M` over the filesystem
plus a ghost trace of collaborator invocations.  Recursion through
requirement files and dependency installation is made total with an
explicit fuel parameter; running out of fuel is the distinguished error
`Err.fuel`, never used to settle a claim.

Helpers that live in repository files not present under `src/`
(`cget/util.py`, `cget/package.py`, `cget/builder.py`, `cget/types.py`) are
modelled from the specification; each such definition carries a doc
comment starting with `Modelled from the spec:`.  Everything else is
translated directly from `src/cget/prefix.py`.
-/

/-- Errors raised by the embedded code: Python exception kinds that the
modelled code paths can raise, plus `fuel` for exhausted recursion fuel. -/
inductive Err where
  | typeError
  | attributeError
  | oserror
  | configurationError
  | buildError
  | stopIteration
  | fuel
deriving DecidableEq

deriving instance DecidableEq for Except

/-- An absolute filesystem path, as its list of components. -/
abbrev FPath := List String

/-- A filesystem node: a directory, a regular file with its content, or a
symbolic link with its target path. -/
inductive FsNode where
  | dir
  | file (content : String)
  | symlink (target : FPath)
deriving DecidableEq

/-- The filesystem: a finite association list from paths to nodes. -/
abbrev Fs := List (FPath × FsNode)

/-- Looks up the node stored at path `p`. -/
def fsFind (fs : Fs) (p : FPath) : Option FsNode :=
  match fs with
  | [] => none
  | e :: t => if e.1 = p then some e.2 else fsFind t p

/-- The embedding of `os.path.exists`: some node is present at `p`. -/
def fsExists (fs : Fs) (p : FPath) : Bool :=
  (fsFind fs p).isSome

/-- The embedding of `Path.is_dir` / `os.path.isdir`. -/
def fsIsDir (fs : Fs) (p : FPath) : Bool :=
  match fsFind fs p with
  | some .dir => true
  | _ => false

/-- The embedding of `os.path.isfile`. -/
def fsIsFile (fs : Fs) (p : FPath) : Bool :=
  match fsFind fs p with
  | some (.file _) => true
  | _ => false

/-- Stores node `n` at path `p`, replacing any previous node.  When the
identical node is already stored the filesystem is returned unchanged, so
that rewriting a file with identical content is a fixed point. -/
def fsSet (fs : Fs) (p : FPath) (n : FsNode) : Fs :=
  if fsFind fs p = some n then fs
  else (p, n) :: fs.filter (fun e => e.1 ≠ p)

/-- Removes the node at exactly path `p`. -/
def fsDel (fs : Fs) (p : FPath) : Fs :=
  fs.filter (fun e => e.1 ≠ p)

/-- Removes the whole subtree rooted at `p` (including `p` itself): the
effect of `shutil.rmtree`. -/
def fsDelTree (fs : Fs) (p : FPath) : Fs :=
  fs.filter (fun e => ¬ p.isPrefixOf e.1)

/-- Whether some entry lies strictly below `root`. -/
def fsHasUnder (fs : Fs) (root : FPath) : Bool :=
  fs.any (fun e => root.isPrefixOf e.1 && !(e.1 == root))

/-- All non-directory entries lying strictly below `root`. -/
def filesUnder (fs : Fs) (root : FPath) : List (FPath × FsNode) :=
  fs.filter (fun e => root.isPrefixOf e.1 && !(e.1 == root) && !(e.2 == FsNode.dir))

/-- The names of the direct children of `p` whose full entry satisfies the
predicate: the embedding of `util.ls(p, predicate)` (an `os.listdir` that
returns `[]` for a missing directory). -/
def fsLs (fs : Fs) (p : FPath) (pred : FsNode → Bool) : List String :=
  fs.filterMap (fun e =>
    match e.1.drop p.length, p.isPrefixOf e.1 with
    | [name], true => if pred e.2 then some name else none
    | _, _ => none)

/-- Creates every missing component of the path as a directory, walking
from the root: the embedding of `os.makedirs`.  A non-directory node in
the way raises an `OSError`. -/
def mkdirpFs (fs : Fs) (acc : FPath) : FPath → Except Err Fs
  | [] => .ok fs
  | c :: rest =>
    let q := acc ++ [c]
    match fsFind fs q with
    | none => mkdirpFs (fsSet fs q .dir) q rest
    | some .dir => mkdirpFs fs q rest
    | some _ => .error .oserror

/-- Splits a list of characters at every occurrence of `c` (Python
`str.split` with a one-character separator). -/
def splitOnCharAux (c : Char) : List Char → List Char → List (List Char)
  | [], acc => [acc.reverse]
  | x :: xs, acc =>
    if x = c then acc.reverse :: splitOnCharAux c xs []
    else splitOnCharAux c xs (x :: acc)

/-- Splits at every occurrence of `c`. -/
def splitOnChar (c : Char) (l : List Char) : List (List Char) :=
  splitOnCharAux c l []

/-- Python `s.split(c)` for a one-character separator. -/
def pySplitOn (s : String) (c : Char) : List String :=
  (splitOnChar c s.data).map String.mk

/-- Whether `sub` occurs inside `hay` (Python `sub in hay`). -/
def listInfix (sub : List Char) : List Char → Bool
  | [] => sub.isPrefixOf ([] : List Char)
  | h :: t => sub.isPrefixOf (h :: t) || listInfix sub t

/-- Python `sub in s` on strings. -/
def strContains (s sub : String) : Bool :=
  listInfix sub.data s.data

/-- Python `s.startswith(pre)`. -/
def strStarts (s pre : String) : Bool :=
  pre.data.isPrefixOf s.data

/-- The first `n` characters of `s` (Python `s[:n]`). -/
def strTake (s : String) (n : Nat) : String :=
  String.mk (s.data.take n)

/-- The characters of `s` from position `n` on (Python `s[n:]`). -/
def strDrop (s : String) (n : Nat) : String :=
  String.mk (s.data.drop n)

/-- Index of the first position at which `sub` starts inside `hay`, with
the running offset `i`. -/
def pyFindAux (sub : List Char) : List Char → Nat → Option Nat
  | [], i => if sub.isPrefixOf ([] : List Char) then some i else none
  | h :: t, i => if sub.isPrefixOf (h :: t) then some i else pyFindAux sub t (i + 1)

/-- Python `s.find(sub, start, stop)`: the lowest index at or after
`start` where `sub` is fully contained inside `s[:stop]`, or `-1`.  A
negative `stop` counts from the end of the string, as in Python. -/
def pyFind (s sub : String) (start : Nat) (stop : Option Int) : Int :=
  let n := s.data.length
  let e : Nat :=
    match stop with
    | none => n
    | some k => if k < 0 then n - min n (-k).toNat else min k.toNat n
  match pyFindAux sub.data ((s.data.take e).drop start) 0 with
  | some i => (start + i : Nat)
  | none => -1

/-- The embedding of `parse_deprecated_alias`: splits `name:rest` at a `:`
that appears before any `://` or `:\` scheme marker (the deprecation
warning it prints is not modelled). -/
def parse_deprecated_alias (s : String) : Option String × String :=
  let i := pyFind s ":" 0 (some (max (pyFind s "://" 0 none) (pyFind s ":\\" 0 none)))
  if i > 0 then (some (strTake s i.toNat), strDrop s (i.toNat + 1))
  else (none, s)

/-- The embedding of `parse_alias`: splits `name,rest` at the first comma,
falling back to the deprecated colon alias. -/
def parse_alias (s : String) : Option String × String :=
  let i := pyFind s "," 0 none
  if i > 0 then (some (strTake s i.toNat), strDrop s (i.toNat + 1))
  else parse_deprecated_alias s

/-- A Python value that is either a string or a boolean, used to embed the
`functools.reduce(lambda x, y: x == y, ps)` expression of
`parse_src_name`, whose accumulator changes type after the first step. -/
inductive StrOrBool where
  | s (v : String)
  | b (v : Bool)
deriving DecidableEq

/-- Python `==` between a string-or-bool accumulator and a string: a bool
never equals a string. -/
def pyEqStr : StrOrBool → String → Bool
  | .s v, w => v == w
  | .b _, _ => false

/-- The reduce of `==` over the parts, exactly as in `parse_src_name`. -/
def redEq : List String → StrOrBool
  | [] => .b true
  | h :: t => t.foldl (fun acc y => .b (pyEqStr acc y)) (.s h)

/-- Python truthiness of the reduce result. -/
def pyTruthy : StrOrBool → Bool
  | .s v => v ≠ ""
  | .b v => v

/-- The embedding of `parse_src_name`: splits `pkg@version`, collapsing a
`name/name` repetition to `name`, and substituting `default` when no
version is given. -/
def parse_src_name (url : String) (default : Option String) : String × Option String :=
  let x := pySplitOn url '@'
  let p0 := x.headD ""
  let p :=
    if strContains p0 "/" then
      let ps := pySplitOn p0 '/'
      if pyTruthy (redEq ps) then ps.headD "" else p0
    else p0
  let v := match x with
           | _ :: v1 :: _ => some v1
           | _ => default
  (p, v)

/-- Modelled from the spec: `PackageSource` of `cget/package.py` (not in
`src/`) — a package source, where code comes from: optional display
name, one of local-file or remote url / recipe-directory path, optional
content hash. -/
structure PackageSource where
  name : Option String := none
  url : Option String := none
  recipe : Option FPath := none
  hashv : Option String := none
deriving DecidableEq

/-- The `pkg_src` attribute of a `PackageBuild`, which in the Python code
is either a raw token string (unresolved) or a `PackageSource`. -/
inductive SrcField where
  | tok (s : String)
  | src (ps : PackageSource)
deriving DecidableEq

/-- Modelled from the spec: `PackageBuild` of `cget/package.py` (not in
`src/`) — a package build request: owns a source, build options (defines,
variant, custom cmake file, requirements-file override, test-only /
build-only / ignore-requirements flags), a `file` include directive and
an optional parent label for dependency-edge tracking. -/
structure PackageBuild where
  pkg_src : SrcField
  define : List (String × String) := []
  variant : Option String := none
  cmake : Option String := none
  requirements : Option FPath := none
  hashv : Option String := none
  file : Option String := none
  test : Bool := false
  build : Bool := false
  ignore_requirements : Bool := false
  parent : Option String := none
deriving DecidableEq

/-- The argument type of the `CGetPrefix` methods accepting
`PACKAGE_SOURCE_TYPES = (str, PackageSource, PackageBuild)`. -/
inductive PkgArg where
  | str (s : String)
  | src (ps : PackageSource)
  | build (pb : PackageBuild)
deriving DecidableEq

/-- Joins path components with slashes. -/
def joinSlash : List String → String
  | [] => ""
  | [x] => x
  | x :: y :: t => x ++ "/" ++ joinSlash (y :: t)

/-- Renders a path as an absolute slash-separated string. -/
def pathToString (p : FPath) : String :=
  "/" ++ joinSlash p

/-- Path components of a slash-separated string, dropping empty parts. -/
def pathOfString (s : String) : FPath :=
  (pySplitOn s '/').filter (fun c => c ≠ "")

/-- Replaces the characters that the identity codec must not emit. -/
def sanitizeChar (c : Char) : Char :=
  if c = '/' ∨ c = ':' ∨ c = '@' ∨ c = ',' ∨ c = '\\' then '_' else c

/-- Filesystem-safe rendering of a string. -/
def sanitize (s : String) : String :=
  String.mk (s.data.map sanitizeChar)

/-- Lexicographic comparison on character codes. -/
def charListLe : List Char → List Char → Bool
  | [], _ => true
  | _ :: _, [] => false
  | a :: s, b :: t =>
    if a.toNat < b.toNat then true
    else if b.toNat < a.toNat then false
    else charListLe s t

/-- String comparison used to canonicalize option keys. -/
def strLe (a b : String) : Bool :=
  charListLe a.data b.data

/-- Insertion into a sorted list of strings. -/
def insertSorted (x : String) : List String → List String
  | [] => [x]
  | y :: t => if strLe x y then x :: y :: t else y :: insertSorted x t

/-- Insertion sort on strings, used to canonicalize option keys. -/
def sortStrings (l : List String) : List String :=
  l.foldr insertSorted []

/-- Joins strings with underscores. -/
def joinUnderscore : List String → String
  | [] => ""
  | [x] => x
  | x :: y :: t => x ++ "_" ++ joinUnderscore (y :: t)

/-- Modelled from the spec: the display name of a package source
(`cget/package.py` is not in `src/`): the name when present, else the url
or recipe path. -/
def PackageSource.display (ps : PackageSource) : String :=
  match ps.name with
  | some n => n
  | none =>
    match ps.url with
    | some u => u
    | none =>
      match ps.recipe with
      | some r => pathToString r
      | none => ""

/-- Modelled from the spec: `pb.to_name()`, the display name of the build
(`cget/package.py` is not in `src/`). -/
def PackageBuild.to_name (pb : PackageBuild) : String :=
  match pb.pkg_src with
  | .src ps => ps.display
  | .tok s => s

/-- Modelled from the spec: `pb.to_fname()`, the Identity Codec `encode`
(`cget/package.py` is not in `src/`): a
deterministic filesystem-safe string derived from the name, the source
locator with version and hash, and a canonical (key-sorted) encoding of
the build options; any difference in those fields changes the result. -/
def PackageBuild.to_fname (pb : PackageBuild) : String :=
  let srcKey :=
    match pb.pkg_src with
    | .src ps =>
      (match ps.name with | some n => n | none => "") ++ "__" ++
      (match ps.url with
       | some u => u
       | none => match ps.recipe with | some r => pathToString r | none => "") ++
      (match ps.hashv with | some h => "__" ++ h | none => "")
    | .tok s => s
  let opts := sortStrings (pb.define.map (fun kv => kv.1 ++ "=" ++ kv.2))
  sanitize (srcKey ++
    (match pb.variant with | some v => "__" ++ v | none => "") ++
    (match pb.hashv with | some h => "__" ++ h | none => "") ++
    (match opts with | [] => "" | _ => "__" ++ joinUnderscore opts))

/-- Modelled from the spec: the fname of a bare `PackageSource`, as used
by `unlink`, `link` and `_list_files` (`pkg.to_fname()` on a
`PackageSource`): the Identity Codec applied to a build with default
options. -/
def PackageSource.to_fname (ps : PackageSource) : String :=
  PackageBuild.to_fname { pkg_src := .src ps }

/-- Modelled from the spec: `fname_to_pkg`, the best-effort inverse of the
Identity Codec, recovering a display source from an fname
(`cget/package.py` is not in `src/`). -/
def fname_to_pkg (f : String) : PackageSource :=
  { name := some f }

/-- Modelled from the spec: `dependent.of(pb)`, the dependency tagged with
its parent's identity, used for dependency-edge tracking
(`cget/package.py` is not in `src/`). -/
def PackageBuild.of (pb parentPb : PackageBuild) : PackageBuild :=
  { pb with parent := some parentPb.to_fname }

/-- Modelled from the spec: merge of two define lists; the overriding list
wins per key (caller options win on conflict). -/
def mergeDefines (base over : List (String × String)) : List (String × String) :=
  base.filter (fun kv => !(over.any (fun kv2 => kv2.1 == kv.1))) ++ over

/-- Modelled from the spec: `p.merge(pkg)` (`cget/package.py` is not in
`src/`), the recipe build merged with the caller's build options, the
caller's winning on conflict.  Option-typed fields take
the caller's value when supplied; boolean flags are supplied exactly when
set, so the merged flag is the disjunction. -/
def PackageBuild.merge (self other : PackageBuild) : PackageBuild :=
  { pkg_src := self.pkg_src
    define := mergeDefines self.define other.define
    variant := Option.or other.variant self.variant
    cmake := Option.or other.cmake self.cmake
    requirements := Option.or other.requirements self.requirements
    hashv := Option.or other.hashv self.hashv
    file := Option.or other.file self.file
    test := self.test || other.test
    build := self.build || other.build
    ignore_requirements := self.ignore_requirements || other.ignore_requirements
    parent := Option.or other.parent self.parent }

/-- Whether a character is line-internal whitespace. -/
def isWsChar (c : Char) : Bool :=
  c = ' ' ∨ c = '\t' ∨ c = '\r' ∨ c = '\n'

/-- Whitespace-separated tokens of a line. -/
def wsTokensAux : List Char → List Char → List String
  | [], acc => if acc.isEmpty then [] else [String.mk acc.reverse]
  | c :: t, acc =>
    if isWsChar c then
      if acc.isEmpty then wsTokensAux t []
      else String.mk acc.reverse :: wsTokensAux t []
    else wsTokensAux t (c :: acc)

/-- Modelled from the spec: `shlex.split(line, comments=True)` —
shell-style tokenization of a specification line, honoring the comment
marker; quoting is not exercised by the theorems below and is not
modelled. -/
def shlexSplit (line : String) : List String :=
  (wsTokensAux line.data []).takeWhile (fun t => !(strStarts t "#"))

/-- One step of the token parser: registers an option token or the
positional source token. -/
def ppbtAux : List String → PackageBuild → PackageBuild
  | [], pb => pb
  | t :: rest, pb =>
    if t == "--test" then ppbtAux rest { pb with test := true }
    else if t == "--build" then ppbtAux rest { pb with build := true }
    else if t == "--ignore-requirements" then ppbtAux rest { pb with ignore_requirements := true }
    else if t == "--cmake" then
      match rest with
      | v :: r2 => ppbtAux r2 { pb with cmake := some v }
      | [] => pb
    else if t == "--variant" then
      match rest with
      | v :: r2 => ppbtAux r2 { pb with variant := some v }
      | [] => pb
    else if t == "--hash" then
      match rest with
      | v :: r2 => ppbtAux r2 { pb with hashv := some v }
      | [] => pb
    else if t == "--file" then
      match rest with
      | v :: r2 => ppbtAux r2 { pb with file := some v }
      | [] => pb
    else if strStarts t "-D" then
      let kv := pySplitOn (strDrop t 2) '='
      ppbtAux rest { pb with define := pb.define ++ [(kv.headD "", (kv.drop 1).headD "")] }
    else
      ppbtAux rest
        { pb with pkg_src := match pb.pkg_src with | .tok "" => .tok t | s => s }

/-- Modelled from the spec: `parse_pkg_build_tokens` — each non-empty,
non-comment specification line parses into one
`PackageBuild`; the first positional token is the source token and a
distinguished `--file` token designates textual inclusion of another file
(`cget/package.py` is not in `src/`). -/
def parse_pkg_build_tokens (ts : List String) : PackageBuild :=
  ppbtAux ts { pkg_src := .tok "" }

/-- The ambient configuration of a `CGetPrefix`: the prefix path, the
working directory used to resolve relative tokens, the module cmake
directory, and the environment-derived settings `os.name == 'nt'` and
`util.USE_SYMLINKS`. -/
structure Conf where
  pfx : FPath
  cwd : FPath
  cgetCmakeDir : FPath
  os_nt : Bool
  use_symlinks : Bool
deriving DecidableEq

/-- Modelled from the spec: `util.actual_path(p, start)` (`cget/util.py`
is not in `src/`) — resolves a possibly relative path string against a
start directory, or against the working directory when no start is
given. -/
def actual_path (C : Conf) (p : String) (start : Option FPath) : FPath :=
  if strStarts p "/" then pathOfString p
  else start.getD C.cwd ++ pathOfString p

/-- The embedding of `get_private_path`: `prefix / 'cget'`. -/
def CGetPrefix.get_private_path (C : Conf) : FPath :=
  C.pfx ++ ["cget"]

/-- The embedding of `get_public_path`: `prefix / 'etc' / 'cget'`. -/
def CGetPrefix.get_public_path (C : Conf) : FPath :=
  C.pfx ++ ["etc", "cget"]

/-- The embedding of `get_recipe_paths`: `[public / 'recipes']`. -/
def CGetPrefix.get_recipe_paths (C : Conf) : List FPath :=
  [CGetPrefix.get_public_path C ++ ["recipes"]]

/-- The embedding of `parse_src_file`: a local source when the token
resolves to an existing path. -/
def CGetPrefix.parse_src_file (C : Conf) (fs : Fs) (name : Option String)
    (url : String) (start : Option FPath) : Option PackageSource :=
  let f := actual_path C url start
  if fsExists fs f then
    some { name := name, url := some ("file://" ++ pathToString f) }
  else none

/-- The embedding of `parse_src_recipe`: a recipe source when a recipe
directory `recipes/<name>/<version or empty>` exists. -/
def CGetPrefix.parse_src_recipe (C : Conf) (fs : Fs) (name : Option String)
    (url : String) : Option PackageSource :=
  let pv := parse_src_name url none
  let findIn : List FPath → Option PackageSource := fun rpaths =>
    rpaths.foldr
      (fun rpath found =>
        let rp := rpath ++ pathOfString pv.1 ++
          (match pv.2 with | some vv => pathOfString vv | none => [])
        if fsExists fs rp then
          some { name := some (match name with
                               | some n => if n = "" then pv.1 else n
                               | none => pv.1)
                 recipe := some rp }
        else found)
      none
  findIn (CGetPrefix.get_recipe_paths C).reverse

/-- The embedding of `parse_src_github`: synthesizes the archive url of
the `owner/repo@ref` shorthand, doubling a bare repo name and defaulting
the ref to `HEAD`. -/
def CGetPrefix.parse_src_github (name : Option String) (url : String) : PackageSource :=
  let pv := parse_src_name url (some "HEAD")
  let vv := match pv.2 with | some x => x | none => "HEAD"
  let url2 :=
    if strContains pv.1 "/" then
      "https://github.com/" ++ pv.1 ++ "/archive/" ++ vv ++ ".tar.gz"
    else
      "https://github.com/" ++ pv.1 ++ "/" ++ pv.1 ++ "/archive/" ++ vv ++ ".tar.gz"
  let nm := match name with | none => some pv.1 | some n => some n
  { name := nm, url := some url2 }

/-- The token branch of `parse_pkg_src`: alias split, then local file,
recipe (unless suppressed) and github shorthand in that order, or a
verbatim remote source when the token carries a scheme marker. -/
def CGetPrefix.parse_pkg_src_str (C : Conf) (fs : Fs) (s : String)
    (start : Option FPath) (no_recipe : Bool) : PackageSource :=
  let nu := parse_alias s
  if !(strContains nu.2 "://") then
    match CGetPrefix.parse_src_file C fs nu.1 nu.2 start with
    | some ps => ps
    | none =>
      match (if no_recipe then none else CGetPrefix.parse_src_recipe C fs nu.1 nu.2) with
      | some ps => ps
      | none => CGetPrefix.parse_src_github nu.1 nu.2
  else { name := nu.1, url := some nu.2 }

/-- The embedding of `parse_pkg_src`.  The argument is optional because
`_list_files` passes its `pkg=None` default straight through; on `None`
the Python code raises before doing anything (`parse_alias(None)` calls
`None.find`), embedded as `attributeError`.  On a `PackageBuild` the
source recurses on `pkg.pkg_src` without forwarding `no_recipe` (line 256
of `prefix.py`), so the recursion uses the default `False`. -/
def CGetPrefix.parse_pkg_src (C : Conf) (fs : Fs) (pkg : Option PkgArg)
    (start : Option FPath) (no_recipe : Bool) : Except Err PackageSource :=
  match pkg with
  | none => .error .attributeError
  | some (.src ps) => .ok ps
  | some (.build pb) =>
    match pb.pkg_src with
    | .src ps => .ok ps
    | .tok s => .ok (CGetPrefix.parse_pkg_src_str C fs s start false)
  | some (.str s) => .ok (CGetPrefix.parse_pkg_src_str C fs s start no_recipe)

/-- The embedding of `find_cmake`: an existing path relative to `start`,
else a file under the module cmake directory (`util.cget_dir('cmake', p)`,
modelled as the configured `cgetCmakeDir`), possibly with a `.cmake`
extension appended, else the original string. -/
def find_cmake (C : Conf) (fs : Fs) (p : String) (start : Option FPath) : String :=
  if p ≠ "" ∧ ¬ strStarts p "/" then
    let absp := actual_path C p start
    if fsExists fs absp then pathToString absp
    else
      let x := C.cgetCmakeDir ++ pathOfString p
      if fsExists fs x then pathToString x
      else
        let xc := match x.reverse with
                  | [] => x
                  | lastc :: revRest => (lastc ++ ".cmake") :: revRest |>.reverse
        if fsExists fs xc then pathToString xc
        else p
  else p

/-- The second positional argument of `from_recipe`: the Python caller at
line 276 passes `pkg_src.name` (a string) where a `PackageBuild` is
expected, so the parameter is either a build or a bare name string. -/
inductive FRArg where
  | build (pb : PackageBuild)
  | strName (s : String)
deriving DecidableEq

/-- Python truthiness of the optional `pkg` argument of `from_recipe`. -/
def frTruthy : Option FRArg → Bool
  | none => false
  | some (.build _) => true
  | some (.strName s) => s ≠ ""

/-- Sets `p.pkg_src.recipe = None`; on an unresolved token source the
attribute access raises. -/
def setSrcRecipeNone (p : PackageBuild) : Except Err PackageBuild :=
  match p.pkg_src with
  | .src ps => .ok { p with pkg_src := .src { ps with recipe := none } }
  | .tok _ => .error .attributeError

/-- Sets `p.pkg_src.name`; on an unresolved token source the attribute
access raises. -/
def setSrcName (p : PackageBuild) (nm : Option String) : Except Err PackageBuild :=
  match p.pkg_src with
  | .src ps => .ok { p with pkg_src := .src { ps with name := nm } }
  | .tok _ => .error .attributeError

mutual

/-- The embedding of `parse_pkg_build`: resolves the source, expands a
recipe when the resolved source names one, and normalizes a custom cmake
path.  When the input is not already a `PackageBuild`, a recipe source is
expanded by passing `pkg_src.name` positionally as the `pkg` argument of
`from_recipe` (line 276 of `prefix.py`). -/
def parse_pkg_build (C : Conf) (fs : Fs) (fuel : Nat) (pkg : PkgArg)
    (start : Option FPath) (no_recipe : Bool) : Except Err PackageBuild :=
  match fuel with
  | 0 => .error .fuel
  | n + 1 =>
    match pkg with
    | .build pb => do
      let ps ← CGetPrefix.parse_pkg_src C fs (some (.build pb)) start no_recipe
      let pb1 := { pb with pkg_src := .src ps }
      let pb2 ←
        match ps.recipe with
        | some r => from_recipe C fs n r (some (.build pb1)) none
        | none => .ok pb1
      match pb2.cmake with
      | some c =>
        if c ≠ "" then .ok { pb2 with cmake := some (find_cmake C fs c start) }
        else .ok pb2
      | none => .ok pb2
    | other => do
      let ps ← CGetPrefix.parse_pkg_src C fs (some other) start no_recipe
      match ps.recipe with
      | some r =>
        from_recipe C fs n r
          (match ps.name with | some x => some (.strName x) | none => none) none
      | none => .ok { pkg_src := .src ps }

/-- The embedding of `from_recipe`: requires `package.txt` (the
`util.ensure_exists` call, modelled from the spec as raising
`ConfigurationError` when the file is absent), parses its first build
with `no_recipe`, defaults the requirements to a sibling
`requirements.txt`, clears the recipe pointer, overwrites the name with
the caller's name, and merges with the caller's options.  When the `pkg`
argument is a truthy string (the line 276 call), the attribute access
`pkg.pkg_src` raises. -/
def from_recipe (C : Conf) (fs : Fs) (fuel : Nat) (recipe : FPath)
    (pkg : Option FRArg) (name : Option String) : Except Err PackageBuild :=
  match fuel with
  | 0 => .error .fuel
  | n + 1 => do
    let recipe_pkg := recipe ++ ["package.txt"]
    if fsExists fs recipe_pkg then do
      let l ← from_file C fs n (some recipe_pkg) none true
      let p0 ← match l with
               | [] => .error .stopIteration
               | p :: _ => .ok p
      let reqs := recipe ++ ["requirements.txt"]
      let p1 := if fsExists fs reqs then { p0 with requirements := some reqs } else p0
      let p2 ← setSrcRecipeNone p1
      let p3 ←
        match pkg with
        | some (.build b) =>
          (match b.pkg_src with
           | .src bs => setSrcName p2 bs.name
           | .tok _ => .error .attributeError)
        | some (.strName s) =>
          if s ≠ "" then .error .attributeError
          else match name with
               | some nm => if nm ≠ "" then setSrcName p2 (some nm) else .ok p2
               | none => .ok p2
        | none =>
          match name with
          | some nm => if nm ≠ "" then setSrcName p2 (some nm) else .ok p2
          | none => .ok p2
      match pkg with
      | some (.build b) => .ok (p3.merge b)
      | some (.strName s) => if s ≠ "" then .error .attributeError else .ok p3
      | none => .ok p3
    else .error .configurationError

/-- The embedding of `from_file`: reads a newline-delimited specification
file, resolving each line; a missing file yields nothing, and a
`file://`-prefixed source url overrides the start directory. -/
def from_file (C : Conf) (fs : Fs) (fuel : Nat) (file : Option FPath)
    (url : Option String) (no_recipe : Bool) : Except Err (List PackageBuild) :=
  match fuel with
  | 0 => .error .fuel
  | n + 1 =>
    match file with
    | none => .ok []
    | some f =>
      if fsExists fs f then
        match fsFind fs f with
        | some (.file content) =>
          let start0 := f.dropLast
          let start :=
            match url with
            | some u => if strStarts u "file://" then pathOfString (strDrop u 7) else start0
            | none => start0
          from_file_lines C fs n ((splitOnChar '\n' content.data).map String.mk) start no_recipe
        | _ => .error .oserror
      else .ok []

/-- The per-line loop of `from_file`: tokenizes each line, follows a
`--file` include, and otherwise resolves the line's build. -/
def from_file_lines (C : Conf) (fs : Fs) (fuel : Nat) (lines : List String)
    (start : FPath) (no_recipe : Bool) : Except Err (List PackageBuild) :=
  match fuel with
  | 0 => .error .fuel
  | n + 1 =>
    match lines with
    | [] => .ok []
    | line :: rest => do
      let tokens := shlexSplit line
      let ps ←
        if tokens.length > 0 then
          let pb := parse_pkg_build_tokens tokens
          match pb.file with
          | some incl =>
            from_file C fs n (some (actual_path C incl (some start))) none no_recipe
          | none => do
            let r ← parse_pkg_build C fs n (.build pb) (some start) no_recipe
            pure [r]
        else pure []
      let more ← from_file_lines C fs n rest start no_recipe
      pure (ps ++ more)

end

/-- The embedding of `get_package_directory`: the store entry directory
`private / fname` of the parsed argument. -/
def CGetPrefix.get_package_directory (C : Conf) (fs : Fs) (fuel : Nat)
    (pb : PkgArg) : Except Err FPath := do
  let pb2 ← parse_pkg_build C fs fuel pb none false
  .ok (CGetPrefix.get_private_path C ++ [pb2.to_fname])

/-- The embedding of `get_unlink_directory`: `package_directory / '.unlink'`. -/
def CGetPrefix.get_unlink_directory (C : Conf) (fs : Fs) (fuel : Nat)
    (pb : PkgArg) : Except Err FPath := do
  let d ← CGetPrefix.get_package_directory C fs fuel pb
  .ok (d ++ [".unlink"])

/-- The embedding of `get_deps_directory`: `package_directory / '.depend'`. -/
def CGetPrefix.get_deps_directory (C : Conf) (fs : Fs) (fuel : Nat)
    (pb : PkgArg) : Except Err FPath := do
  let d ← CGetPrefix.get_package_directory C fs fuel pb
  .ok (d ++ [".depend"])

/-- Ghost trace events recording collaborator invocations: the Builder
calls and each recursive dependency-install invocation of
`install_deps`. -/
inductive Ev where
  | fetch (url : Option String)
  | configure
  | build (target : Option String)
  | btest
  | installCall (dep : PackageBuild) (track : Bool)
deriving DecidableEq

/-- Whether an event is a Builder invocation. -/
def Ev.isBuilderEv : Ev → Bool
  | .fetch _ => true
  | .configure => true
  | .build _ => true
  | .btest => true
  | .installCall _ _ => false

/-- The mutable state: the filesystem and the ghost event trace. -/
structure St where
  fs : Fs
  trace : List Ev
deriving DecidableEq

/-- The state-and-error monad the mutating operations run in. -/
def M (α : Type) : Type :=
  St → Except Err (α × St)

instance : Monad M where
  pure a := fun s => .ok (a, s)
  bind m f := fun s =>
    match m s with
    | .error e => .error e
    | .ok (a, t) => f a t

/-- Raises a Python exception. -/
def M.throw (e : Err) : M α :=
  fun _ => .error e

/-- Reads the current filesystem. -/
def getFs : M Fs :=
  fun s => .ok (s.fs, s)

/-- Replaces the filesystem. -/
def setFs (fs : Fs) : M Unit :=
  fun s => .ok ((), { s with fs := fs })

/-- Appends a ghost trace event. -/
def emit (e : Ev) : M Unit :=
  fun s => .ok ((), { s with trace := s.trace ++ [e] })

/-- Lifts a pure `Except` computation. -/
def liftE (x : Except Err α) : M α :=
  fun s =>
    match x with
    | .ok a => .ok (a, s)
    | .error e => .error e

/-- Modelled from the spec: `util.mkdir` (`cget/util.py` is not in
`src/`) — creates the directory (with parents) unless some node already
exists at the path (the original checks `os.path.exists` before calling
`os.makedirs`). -/
def mkdirM (p : FPath) : M Unit := do
  let fs ← getFs
  if fsExists fs p then pure ()
  else
    match mkdirpFs fs [] p with
    | .ok fs2 => setFs fs2
    | .error e => M.throw e

/-- Modelled from the spec: `util.mkfile(d, name, content)`
(`cget/util.py` is not in `src/`) — creates the directory and writes the
file content, overwriting any previous content. -/
def mkfileM (d : FPath) (nm content : String) : M Unit := do
  mkdirM d
  let fs ← getFs
  match fsFind fs (d ++ [nm]) with
  | some .dir => M.throw .oserror
  | _ => setFs (fsSet fs (d ++ [nm]) (.file content))

/-- The embedding of `shutil.rmtree(p, ignore_errors=True)`. -/
def rmtreeIgnoreM (p : FPath) : M Unit := do
  let fs ← getFs
  setFs (fsDelTree fs p)

/-- The embedding of `shutil.rmtree(p)`: raises when `p` is not a
directory. -/
def rmtreeStrictM (p : FPath) : M Unit := do
  let fs ← getFs
  if fsIsDir fs p then setFs (fsDelTree fs p)
  else M.throw .oserror

/-- Modelled from the spec: `util.delete_dir` (`cget/util.py` is not in
`src/`) — removes the directory tree. -/
def delete_dirM (p : FPath) : M Unit :=
  rmtreeStrictM p

/-- The embedding of `os.rename(src, dst)` with POSIX semantics: the
source must exist, the destination may not lie inside the source, an
existing destination must be empty and of the same kind, and the whole
subtree is rebased. -/
def renameM (src dst : FPath) : M Unit := do
  let fs ← getFs
  match fsFind fs src with
  | none => M.throw .oserror
  | some srcNode =>
    if src.isPrefixOf dst && !(src == dst) then M.throw .oserror
    else if fsHasUnder fs dst then M.throw .oserror
    else
      match fsFind fs dst with
      | some .dir =>
        if srcNode == FsNode.dir then
          setFs (fs.filterMap (fun e =>
            if src.isPrefixOf e.1 then some (dst ++ e.1.drop src.length, e.2)
            else if e.1 = dst then none
            else some e))
        else M.throw .oserror
      | some _ =>
        if srcNode == FsNode.dir then M.throw .oserror
        else
          setFs (fs.filterMap (fun e =>
            if src.isPrefixOf e.1 then some (dst ++ e.1.drop src.length, e.2)
            else if e.1 = dst then none
            else some e))
      | none =>
        setFs (fs.filterMap (fun e =>
          if src.isPrefixOf e.1 then some (dst ++ e.1.drop src.length, e.2)
          else if e.1 = dst then none
          else some e))

/-- The embedding of `shutil.copyfile(src, dst)`. -/
def copyfileM (src dst : FPath) : M Unit := do
  let fs ← getFs
  match fsFind fs src with
  | some (.file c) =>
    (match fsFind fs dst with
     | some .dir => M.throw .oserror
     | _ => setFs (fsSet fs dst (.file c)))
  | _ => M.throw .oserror

/-- Modelled from the spec: `util.rm_symlink_from(src, dst)`
(`cget/util.py` is not in `src/`) — removes from the prefix tree every
symlinked path mirroring an entry under `src`. -/
def rm_symlink_fromM (src dst : FPath) : M Unit := do
  let fs ← getFs
  setFs ((filesUnder fs src).foldl
    (fun acc e =>
      let tgt := dst ++ e.1.drop src.length
      match fsFind acc tgt with
      | some (.symlink _) => fsDel acc tgt
      | _ => acc)
    fs)

/-- Modelled from the spec: `util.rm_dup_dir(src, dst, remove_both)`
(`cget/util.py` is not in `src/`) — removes from the prefix tree every
duplicate of a file under `src`; `remove_both = false` keeps the
originals. -/
def rm_dup_dirM (src dst : FPath) (removeBoth : Bool) : M Unit := do
  let fs ← getFs
  let fs2 := (filesUnder fs src).foldl
    (fun acc e =>
      let tgt := dst ++ e.1.drop src.length
      if fsFind acc tgt = some e.2 then
        let acc2 := fsDel acc tgt
        if removeBoth then fsDel acc2 e.1 else acc2
      else acc)
    fs
  setFs fs2

/-- One sweep removing the directories strictly below `root` that have no
entry below them. -/
def emptyDirsOnce (fs : Fs) (root : FPath) : Fs :=
  fs.filter (fun e =>
    !(e.2 == FsNode.dir && root.isPrefixOf e.1 && !(e.1 == root) && !(fsHasUnder fs e.1)))

/-- Iterated sweeps until a fixed point (bounded by the size of the
filesystem). -/
def rmEmptyDirsFs : Nat → Fs → FPath → Fs
  | 0, fs, _ => fs
  | n + 1, fs, root =>
    let fs2 := emptyDirsOnce fs root
    if fs2 == fs then fs else rmEmptyDirsFs n fs2 root

/-- Modelled from the spec: `util.rm_empty_dirs` (`cget/util.py` is not
in `src/`) — prunes now-empty prefix directories. -/
def rm_empty_dirsM (root : FPath) : M Unit := do
  let fs ← getFs
  setFs (rmEmptyDirsFs fs.length fs root)

/-- Publishes the non-directory entries under `src` into `dst`, as
symlinks (`mode = true`) or as copies. -/
def publishEntries (mode : Bool) (src dst : FPath) : List (FPath × FsNode) → M Unit
  | [] => pure ()
  | e :: rest => do
    let tgt := dst ++ e.1.drop src.length
    mkdirM tgt.dropLast
    let fs ← getFs
    match fsFind fs tgt with
    | some .dir => M.throw .oserror
    | _ => setFs (fsSet fs tgt (if mode then .symlink e.1 else e.2))
    publishEntries mode src dst rest

/-- Modelled from the spec: `util.symlink_dir(src, dst)` (`cget/util.py`
is not in `src/`) — publishes every path under `src` into the prefix tree
as a symbolic link. -/
def symlink_dirM (src dst : FPath) : M Unit := do
  let fs ← getFs
  publishEntries true src dst (filesUnder fs src)

/-- Modelled from the spec: `util.copy_dir(src, dst)` (`cget/util.py` is
not in `src/`) — publishes every path under `src` into the prefix tree as
a copy. -/
def copy_dirM (src dst : FPath) : M Unit := do
  let fs ← getFs
  publishEntries false src dst (filesUnder fs src)

/-- The Builder collaborator handle created by `create_builder`:
its working directory and whether that directory already existed. -/
structure Builder where
  d : FPath
  existsB : Bool
  cmake_original_file : String := "__cget_original_cmake_file__.cmake"
deriving DecidableEq

/-- Modelled from the spec: `Builder.fetch` (`cget/builder.py` is not in
`src/`) — the collaborator downloads and unpacks the source into the
build directory and returns the source directory; the model records the
invocation and creates a `src` subdirectory. -/
def Builder.fetch (b : Builder) (url : Option String) (hashv : Option String)
    (needsCmake : Bool) (insecure : Bool) : M FPath := do
  emit (.fetch url)
  let sd := b.d ++ ["src"]
  mkdirM sd
  pure sd

/-- Modelled from the spec: `Builder.configure` (`cget/builder.py` is not
in `src/`) — the collaborator generates the build configuration; the
model records the invocation. -/
def Builder.configure (b : Builder) (srcDir : FPath) (defines : List (String × String))
    (generator : Option String) (instDir : FPath) (test : Bool)
    (variant : Option String) : M Unit :=
  emit .configure

/-- Modelled from the spec: `Builder.build` (`cget/builder.py` is not in
`src/`) — the collaborator drives the build tool for the given target;
the model records the invocation. -/
def Builder.build (b : Builder) (variant : Option String)
    (target : Option String) : M Unit :=
  emit (.build target)

/-- Modelled from the spec: `Builder.test` (`cget/builder.py` is not in
`src/`) — the collaborator runs the tests; the model records the
invocation. -/
def Builder.test (b : Builder) (variant : Option String) : M Unit :=
  emit .btest

/-- The url of a resolved source; on an unresolved token the Python
attribute access `pkg_src.url` raises. -/
def SrcField.urlE : SrcField → Except Err (Option String)
  | .src ps => .ok ps.url
  | .tok _ => .error .attributeError

/-- The embedding of `write_parent` (lines 318 to 319 of `prefix.py`):
when tracking and the build carries a parent label, writes an empty
marker file named after the parent into the dependency-record directory
keyed by the build's fname. -/
def CGetPrefix.write_parent (C : Conf) (fuel : Nat) (pb : PackageBuild)
    (track : Bool) : M Unit :=
  match track, pb.parent with
  | true, some par => do
    let fs ← getFs
    let dd ← liftE (CGetPrefix.get_deps_directory C fs fuel (.str pb.to_fname))
    mkfileM dd par par
  | _, _ => pure ()

/-- The embedding of `ignore` (lines 375 to 385 of `prefix.py`): creates
an `ignore` marker entry when no entry exists, else reports the package
as already installed. -/
def CGetPrefix.ignore (C : Conf) (fuel : Nat) (pbArg : PkgArg) : M String := do
  let fs ← getFs
  let pb ← liftE (parse_pkg_build C fs fuel pbArg none false)
  let pkg_dir := CGetPrefix.get_private_path C ++ [pb.to_fname]
  if !(fsExists fs pkg_dir) then do
    mkfileM pkg_dir "ignore" "ignore"
    pure ("Ignore package " ++ pb.to_name)
  else
    pure ("Package " ++ pb.to_name ++ " already installed")

/-- The embedding of `unlink` (lines 431 to 447 of `prefix.py`): removes
the entry's published paths from the prefix tree and prunes empty
directories, then either deletes the entry (`delete = true`) or attempts
to mark it unlinked.  In the latter branch the source executes
`util.mkdir(self.get_unlink_directory())`, calling `get_unlink_directory`
without its required `pb` argument: Python raises `TypeError` (and the
following `os.rename(pkg_dir, unlink_dir)` would in any case move the
directory into its own child `.unlink`, an invalid rename). -/
def CGetPrefix.unlink (C : Conf) (fuel : Nat) (pkgArg : PkgArg)
    (delete : Bool) : M Unit := do
  let fs ← getFs
  let pkg ← liftE (CGetPrefix.parse_pkg_src C fs (some pkgArg) none false)
  let pkg_dir ← liftE (CGetPrefix.get_package_directory C fs fuel (.src pkg))
  let _unlink_dir ← liftE (CGetPrefix.get_unlink_directory C fs fuel (.src pkg))
  if fsExists fs pkg_dir then do
    if C.use_symlinks then rm_symlink_fromM (pkg_dir ++ ["install"]) C.pfx
    else rm_dup_dirM (pkg_dir ++ ["install"]) C.pfx false
    rm_empty_dirsM C.pfx
    if delete then delete_dirM pkg_dir
    else M.throw .typeError
  else pure ()

/-- The embedding of `remove` (lines 427 to 429 of `prefix.py`):
`unlink` with deletion. -/
def CGetPrefix.remove (C : Conf) (fuel : Nat) (pkgArg : PkgArg) : M Unit :=
  CGetPrefix.unlink C fuel pkgArg true

/-- The dependency-relink loop of `link` (lines 462 to 464 of
`prefix.py`): each iteration first evaluates
`self.get_unlink_deps_directory(pkg)`, and `CGetPrefix` defines no method
of that name, so Python raises `AttributeError` on the first iterated
entry; with no entries the loop does nothing. -/
def linkDeps : List String → M Unit
  | [] => pure ()
  | _ :: _ => M.throw .attributeError

/-- The embedding of `link` (lines 449 to 464 of `prefix.py`): when the
entry carries an `unlink` child directory, renames it over the package
directory (note that `unlink` never creates this marker: it uses
`.unlink`) and republishes the install tree, then iterates the
dependency-relink loop over the children of the now-renamed `unlink`
directory. -/
def CGetPrefix.link (C : Conf) (fuel : Nat) (pkgArg : PkgArg) : M Unit := do
  let fs ← getFs
  let pkg ← liftE (CGetPrefix.parse_pkg_src C fs (some pkgArg) none false)
  let pkg_dir ← liftE (CGetPrefix.get_package_directory C fs fuel (.src pkg))
  let unlink_dir := pkg_dir ++ ["unlink"]
  if fsExists fs unlink_dir then do
    mkdirM pkg_dir
    renameM unlink_dir pkg_dir
    if C.use_symlinks then symlink_dirM (pkg_dir ++ ["install"]) C.pfx
    else copy_dirM (pkg_dir ++ ["install"]) C.pfx
  let fs2 ← getFs
  linkDeps (fsLs fs2 unlink_dir (fun n => n == FsNode.dir))

mutual

/-- The embedding of `install` (lines 332 to 373 of `prefix.py`): links
an unlinked entry back in (or discards the marker under `update`), skips
an existing entry (or removes it under `update`), and otherwise runs the
inlined `create_builder` context: compute the package directory, record
whether it existed, create it, fetch, install dependencies, set up a
custom cmake file, configure, build, optionally test, install — and then,
since the builder was created with `tmp=True`, delete the directory
unless running on Windows (`os.name != 'nt'`).  The two Python early
returns are flattened into explicit `else` branches, so the branch
conditions `unlinked and not update` and `exists and not update` appear
spelled out. -/
def CGetPrefix.install (C : Conf) (fuel : Nat) (pbArg : PkgArg)
    (test test_all : Bool) (generator : Option String)
    (update track insecure : Bool) : M String :=
  match fuel with
  | 0 => M.throw .fuel
  | n + 1 => do
    let fs0 ← getFs
    let pb ← liftE (parse_pkg_build C fs0 n pbArg none false)
    let pkg_dir ← liftE (CGetPrefix.get_package_directory C fs0 n (.build pb))
    let unlink_dir := pkg_dir ++ ["unlink"]
    if fsIsDir fs0 unlink_dir && !update then do
      CGetPrefix.link C n (.build pb)
      CGetPrefix.write_parent C n pb track
      pure ("Linking package " ++ pb.to_name)
    else do
      if fsIsDir fs0 unlink_dir then rmtreeStrictM unlink_dir else pure ()
      let fs1 ← getFs
      if fsIsDir fs1 pkg_dir && !update then do
        CGetPrefix.write_parent C n pb track
        pure ("Package " ++ pb.to_name ++ " already installed")
      else do
        if fsIsDir fs1 pkg_dir then do
          CGetPrefix.write_parent C n pb track
          CGetPrefix.remove C n (.build pb)
        else pure ()
        let fs2 ← getFs
        let d ← liftE (CGetPrefix.get_package_directory C fs2 n (.build pb))
        let ex := fsExists fs2 d
        mkdirM d
        let b : Builder := { d := d, existsB := ex }
        let url ← liftE pb.pkg_src.urlE
        let src_dir ← b.fetch url pb.hashv (pb.cmake ≠ none) insecure
        CGetPrefix.install_deps C n pb src_dir test test_all generator insecure
          pb.ignore_requirements
        match pb.cmake with
        | some c => do
          let target := src_dir ++ ["CMakeLists.txt"]
          let fs3 ← getFs
          if fsExists fs3 target then
            renameM target (src_dir ++ [b.cmake_original_file])
          copyfileM (pathOfString c) target
        | none => pure ()
        b.configure src_dir pb.define generator C.pfx test pb.variant
        b.build pb.variant none
        if test || test_all then b.test pb.variant
        b.build pb.variant (some "install")
        if !C.os_nt then rmtreeIgnoreM d
        CGetPrefix.write_parent C n pb track
        pure ("Successfully installed " ++ pb.to_name)

/-- The embedding of `install_deps` (lines 321 to 330 of `prefix.py`):
reads the resolved requirements (the explicit requirements file, else
`requirements.txt` in the source directory unless suppressed) and
iterates the dependency loop. -/
def CGetPrefix.install_deps (C : Conf) (fuel : Nat) (pb : PackageBuild)
    (d : FPath) (test test_all : Bool) (generator : Option String)
    (insecure ignore_requirements : Bool) : M Unit :=
  match fuel with
  | 0 => M.throw .fuel
  | n + 1 => do
    let req_txt := if !ignore_requirements then some (d ++ ["requirements.txt"]) else none
    let fs ← getFs
    let url ← liftE pb.pkg_src.urlE
    let deps ← liftE (from_file C fs n (Option.or pb.requirements req_txt) url false)
    CGetPrefix.install_each C n pb deps test test_all generator insecure

/-- The dependency loop of `install_deps`: a dependency is transient when
marked test-only or build-only, installable unless test-only outside a
testing run; each installable dependency is installed (ghost event
`installCall`) tagged with its parent and tracked exactly when not
transient. -/
def CGetPrefix.install_each (C : Conf) (fuel : Nat) (pb : PackageBuild)
    (deps : List PackageBuild) (test test_all : Bool)
    (generator : Option String) (insecure : Bool) : M Unit :=
  match fuel with
  | 0 => M.throw .fuel
  | n + 1 =>
    match deps with
    | [] => pure ()
    | dep :: rest => do
      let transient := dep.test || dep.build
      let testing := test || test_all
      let installable := !dep.test || (dep.test == testing)
      if installable then do
        emit (.installCall (dep.of pb) (!transient))
        let _ ← CGetPrefix.install C n (.build (dep.of pb)) false test_all generator
          false (!transient) insecure
        pure ()
      CGetPrefix.install_each C n pb rest test test_all generator insecure

end

/-- The embedding of `_list_files` (lines 466 to 476 of `prefix.py`).
The reordered code first calls `self.parse_pkg_src(pkg)` even when `pkg`
is `None`; the parse raises before the `if pkg is None` enumeration is
reached, and after a successful parse the `pkg is None` branch can never
be taken, so only the dependency-record listing remains. -/
def CGetPrefix.list_files (C : Conf) (fs : Fs) (fuel : Nat)
    (pkg : Option PkgArg) (top : Bool) : Except Err (List String) := do
  let ps ← CGetPrefix.parse_pkg_src C fs pkg none false
  let _pkg_dir ← CGetPrefix.get_package_directory C fs fuel (.src ps)
  let dd ← CGetPrefix.get_deps_directory C fs fuel (.str ps.to_fname)
  let ls0 := fsLs fs dd (fun n => match n with | .file _ => true | _ => false)
  .ok (if top then ps.to_fname :: ls0 else ls0)

mutual

/-- The embedding of `list` (lines 478 to 485 of `prefix.py`): maps each
listed fname back to a display source, keeping those whose entry exists,
and recurses into recorded edges when requested. -/
def CGetPrefix.list (C : Conf) (fs : Fs) (fuel : Nat) (pkg : Option PkgArg)
    (recursive top : Bool) : Except Err (List PackageSource) :=
  match fuel with
  | 0 => .error .fuel
  | n + 1 => do
    let ds ← CGetPrefix.list_files C fs n pkg top
    CGetPrefix.list_go C fs n ds recursive

/-- The enumeration loop of `list`. -/
def CGetPrefix.list_go (C : Conf) (fs : Fs) (fuel : Nat) (ds : List String)
    (recursive : Bool) : Except Err (List PackageSource) :=
  match fuel with
  | 0 => .error .fuel
  | n + 1 =>
    match ds with
    | [] => .ok []
    | dd :: rest => do
      let p := fname_to_pkg dd
      let cur := if fsExists fs (CGetPrefix.get_private_path C ++ [dd]) then [p] else []
      let rec1 ←
        if recursive then CGetPrefix.list C fs n (some (.src p)) recursive false
        else .ok []
      let more ← CGetPrefix.list_go C fs n rest recursive
      .ok (cur ++ rec1 ++ more)

end

theorem M.bind_app (m : M α) (f : α → M β) (s : St) :
    (m >>= f) s = match m s with
                  | .error e => .error e
                  | .ok (a, t) => f a t := rfl

theorem M.pure_app (a : α) (s : St) : (pure a : M α) s = .ok (a, s) := rfl

theorem getFs_app (s : St) : getFs s = .ok (s.fs, s) := rfl

theorem setFs_app (fs : Fs) (s : St) : setFs fs s = .ok ((), { s with fs := fs }) := rfl

theorem emit_app (e : Ev) (s : St) :
    emit e s = .ok ((), { s with trace := s.trace ++ [e] }) := rfl

theorem liftE_app (x : Except Err α) (s : St) :
    liftE x s = match x with
                | .ok a => .ok (a, s)
                | .error e => .error e := rfl


theorem fsFind_cons (e : FPath × FsNode) (t : Fs) (q : FPath) :
    fsFind (e :: t) q = if e.1 = q then some e.2 else fsFind t q := rfl

theorem fsFind_filter_ne (fs : Fs) (p q : FPath) (h : q ≠ p) :
    fsFind (fs.filter (fun e => e.1 ≠ p)) q = fsFind fs q := by
  induction fs with
  | nil => rfl
  | cons e t ih =>
    by_cases he : e.1 = p
    · have hq : e.1 ≠ q := by
        rw [he]
        exact fun hx => h hx.symm
      rw [List.filter_cons_of_neg (by simpa using he), ih, fsFind_cons, if_neg hq]
    · rw [List.filter_cons_of_pos (by simpa using he), fsFind_cons, fsFind_cons]
      by_cases hq : e.1 = q
      · rw [if_pos hq, if_pos hq]
      · rw [if_neg hq, if_neg hq, ih]

theorem fsSet_find_self (fs : Fs) (p : FPath) (n : FsNode) :
    fsFind (fsSet fs p n) p = some n := by
  unfold fsSet
  by_cases h : fsFind fs p = some n
  · rw [if_pos h]; exact h
  · rw [if_neg h, fsFind_cons, if_pos rfl]

theorem fsSet_find_ne (fs : Fs) (p : FPath) (n : FsNode) (q : FPath) (h : q ≠ p) :
    fsFind (fsSet fs p n) q = fsFind fs q := by
  unfold fsSet
  by_cases hs : fsFind fs p = some n
  · rw [if_pos hs]
  · rw [if_neg hs, fsFind_cons, if_neg (fun hx => h hx.symm), fsFind_filter_ne _ _ _ h]

theorem mkdirp_find (comps : FPath) : ∀ (fs : Fs) (acc : FPath) (fs2 : Fs),
    mkdirpFs fs acc comps = .ok fs2 → ∀ q : FPath,
    fsFind fs2 q = fsFind fs q ∨
      (fsFind fs q = none ∧ fsFind fs2 q = some FsNode.dir ∧
        q.length ≤ acc.length + comps.length) := by
  induction comps with
  | nil =>
    intro fs acc fs2 h q
    simp only [mkdirpFs] at h
    cases h
    exact Or.inl rfl
  | cons c rest ih =>
    intro fs acc fs2 h q
    have hlen : (acc ++ [c]).length = acc.length + 1 := by
      simp
    simp only [mkdirpFs] at h
    cases hf : fsFind fs (acc ++ [c]) with
    | none =>
      rw [hf] at h
      rcases ih _ _ _ h q with h1 | ⟨h1, h2, h3⟩
      · by_cases hq : q = acc ++ [c]
        · subst hq
          right
          refine ⟨hf, ?_, ?_⟩
          · rw [h1, fsSet_find_self]
          · rw [hlen]
            simp only [List.length_cons]
            omega
        · left
          rw [h1, fsSet_find_ne _ _ _ _ hq]
      · by_cases hq : q = acc ++ [c]
        · subst hq
          rw [fsSet_find_self] at h1
          cases h1
        · rw [fsSet_find_ne _ _ _ _ hq] at h1
          right
          refine ⟨h1, h2, ?_⟩
          rw [hlen] at h3
          simp only [List.length_cons] at h3 ⊢
          omega
    | some nd =>
      cases nd with
      | dir =>
        rw [hf] at h
        rcases ih _ _ _ h q with h1 | ⟨h1, h2, h3⟩
        · exact Or.inl h1
        · right
          refine ⟨h1, h2, ?_⟩
          rw [hlen] at h3
          simp only [List.length_cons] at h3 ⊢
          omega
      | file cc => rw [hf] at h; cases h
      | symlink tg => rw [hf] at h; cases h

theorem mkdirp_target (comps : FPath) : ∀ (fs : Fs) (acc : FPath) (fs2 : Fs),
    mkdirpFs fs acc comps = .ok fs2 →
    comps = [] ∨ fsFind fs2 (acc ++ comps) = some FsNode.dir := by
  induction comps with
  | nil => intro fs acc fs2 h; exact Or.inl rfl
  | cons c rest ih =>
    intro fs acc fs2 h
    right
    have hsplit : acc ++ c :: rest = (acc ++ [c]) ++ rest := by simp
    rw [hsplit]
    simp only [mkdirpFs] at h
    cases hf : fsFind fs (acc ++ [c]) with
    | none =>
      rw [hf] at h
      rcases ih _ _ _ h with hr | hr
      · subst hr
        simp only [mkdirpFs] at h
        cases h
        rw [List.append_nil]
        exact fsSet_find_self fs (acc ++ [c]) .dir
      · exact hr
    | some nd =>
      cases nd with
      | dir =>
        rw [hf] at h
        rcases ih _ _ _ h with hr | hr
        · subst hr
          simp only [mkdirpFs] at h
          cases h
          rw [List.append_nil]
          exact hf
        · exact hr
      | file cc => rw [hf] at h; cases h
      | symlink tg => rw [hf] at h; cases h


theorem exceptBind_ok (a : α) (f : α → Except Err β) :
    (Except.ok a >>= f) = f a := rfl

theorem exceptBind_err (e : Err) (f : α → Except Err β) :
    ((Except.error e : Except Err α) >>= f) = .error e := rfl

theorem exceptPure (a : α) : (pure a : Except Err α) = .ok a := rfl

theorem parse_pkg_build_resolved (C : Conf) (fs : Fs) (n : Nat) (pb : PackageBuild)
    (ps : PackageSource) (start : Option FPath) (nr : Bool)
    (h1 : pb.pkg_src = .src ps) (h2 : ps.recipe = none) (h3 : pb.cmake = none) :
    parse_pkg_build C fs (n + 1) (.build pb) start nr = .ok pb := by
  have hps : CGetPrefix.parse_pkg_src C fs (some (.build pb)) start nr = .ok ps := by
    simp [CGetPrefix.parse_pkg_src, h1]
  have heta : { pb with pkg_src := .src ps } = pb := by
    rw [← h1]
  simp only [parse_pkg_build, hps, exceptBind_ok, heta, h2, h3]
  rw [← h3]
  exact congrArg Except.ok heta

theorem get_package_directory_resolved (C : Conf) (fs : Fs) (n : Nat)
    (pb : PackageBuild) (ps : PackageSource)
    (h1 : pb.pkg_src = .src ps) (h2 : ps.recipe = none) (h3 : pb.cmake = none) :
    CGetPrefix.get_package_directory C fs (n + 1) (.build pb) =
      .ok (CGetPrefix.get_private_path C ++ [pb.to_fname]) := by
  simp [CGetPrefix.get_package_directory,
    parse_pkg_build_resolved C fs n pb ps none false h1 h2 h3, exceptBind_ok]

theorem write_parent_none (C : Conf) (k : Nat) (pb : PackageBuild) (track : Bool)
    (h : pb.parent = none) :
    CGetPrefix.write_parent C k pb track = pure () := by
  unfold CGetPrefix.write_parent
  rw [h]
  cases track <;> rfl

theorem install_already_aux (C : Conf) (s : St) (n : Nat)
    (pb : PackageBuild) (ps : PackageSource)
    (h1 : pb.pkg_src = .src ps) (h2 : ps.recipe = none) (h3 : pb.cmake = none)
    (h4 : pb.parent = none)
    (h5 : fsIsDir s.fs (CGetPrefix.get_private_path C ++ [pb.to_fname]) = true)
    (h6 : fsIsDir s.fs ((CGetPrefix.get_private_path C ++ [pb.to_fname]) ++ ["unlink"]) = false) :
    CGetPrefix.install C (n + 2) (.build pb) false false none false true false s =
      .ok ("Package " ++ pb.to_name ++ " already installed", s) := by
  have hparse := parse_pkg_build_resolved C s.fs n pb ps none false h1 h2 h3
  have hgpd := get_package_directory_resolved C s.fs n pb ps h1 h2 h3
  have hwp := write_parent_none C (n + 1) pb true h4
  show CGetPrefix.install C ((n + 1) + 1) (.build pb) false false none false true false s = _
  simp only [CGetPrefix.install, M.bind_app, getFs_app, liftE_app, hparse, hgpd,
    h5, h6, hwp, M.pure_app, Bool.not_false, Bool.and_true, Bool.true_and,
    Bool.false_and, Bool.and_false, if_false, if_true, Bool.false_eq_true,
    Bool.true_eq_false, ite_false, ite_true]

/-- Claim C10: for every package whose store entry directory exists and
does not contain the `unlink` marker directory — however incomplete the
entry's contents, for instance after a failed build — `install` with
`update` unset returns the already-installed report with the state
completely untouched: no Builder call is made, and the state check never
distinguishes a completed, linked entry from an incomplete one. -/
theorem install_existing_dir_skips_builder (C : Conf) (s : St) (n : Nat)
    (pb : PackageBuild) (ps : PackageSource)
    (h1 : pb.pkg_src = .src ps) (h2 : ps.recipe = none) (h3 : pb.cmake = none)
    (h4 : pb.parent = none)
    (h5 : fsIsDir s.fs (CGetPrefix.get_private_path C ++ [pb.to_fname]) = true)
    (h6 : fsIsDir s.fs ((CGetPrefix.get_private_path C ++ [pb.to_fname]) ++ ["unlink"]) = false) :
    CGetPrefix.install C (n + 2) (.build pb) false false none false true false s =
      .ok ("Package " ++ pb.to_name ++ " already installed", s) :=
  install_already_aux C s n pb ps h1 h2 h3 h4 h5 h6

/-- A concrete configuration: POSIX host with symlink support, prefix
`/p`, working directory `/home`. -/
def confPosix : Conf :=
  { pfx := ["p"], cwd := ["home"], cgetCmakeDir := ["app", "cmake"],
    os_nt := false, use_symlinks := true }

/-- The same configuration on Windows (`os.name == 'nt'`). -/
def confWin : Conf :=
  { confPosix with os_nt := true }

/-- The same configuration composing by copy instead of symlink. -/
def confCopy : Conf :=
  { confPosix with use_symlinks := false }

/-- A concrete resolved remote package source. -/
def psZ : PackageSource :=
  { name := some "zlib", url := some "https://x/z.tar.gz" }

/-- The concrete resolved build request for `psZ` with default options. -/
def pbZ : PackageBuild :=
  { pkg_src := .src psZ }

/-- The empty starting state: nothing on disk. -/
def stEmpty : St :=
  { fs := [], trace := [] }

/-- A store entry directory for `pbZ` containing only a stale `build`
subdirectory: an incomplete entry, as left behind by a failed build. -/
def stPartial : St :=
  { fs := [(["p"], .dir), (["p", "cget"], .dir),
           (["p", "cget", pbZ.to_fname], .dir),
           (["p", "cget", pbZ.to_fname, "build"], .dir)],
    trace := [] }

/-- Witness for `install_existing_dir_skips_builder`: an incomplete entry
(a `build` directory and nothing else, in particular no `install` tree)
is reported as already installed with the state untouched. -/
theorem install_existing_dir_skips_builder_witness :
    CGetPrefix.install confPosix 5 (.build pbZ) false false none false true false stPartial =
      .ok ("Package " ++ pbZ.to_name ++ " already installed", stPartial) :=
  install_existing_dir_skips_builder confPosix stPartial 3 pbZ psZ rfl rfl rfl rfl
    (by decide) (by decide)

/-- The Builder events of the first, successful install of `pbZ` from the
empty store. -/
def buildEvs : List Ev :=
  [.fetch (some "https://x/z.tar.gz"), .configure, .build none, .build (some "install")]

/-- The state after one fresh install of `pbZ` on the POSIX
configuration: the `create_builder(tmp=True)` exit hook has deleted the
store entry directory, leaving only the bare private tree. -/
def c1s1 : St :=
  { fs := [(["p", "cget"], .dir), (["p"], .dir)], trace := buildEvs }

/-- The state after the second install: the entry is again deleted and the
Builder has run a second complete fetch/configure/build/install cycle. -/
def c1s2 : St :=
  { fs := [(["p", "cget"], .dir), (["p"], .dir)], trace := buildEvs ++ buildEvs }

/-- Claim C1 (code bug): on a POSIX host (`os.name != 'nt'`), `install`
deletes its own store entry after a successful build, because
`create_builder` uses the package store directory as its `tmp=True`
working directory and removes it on exit.  A second `install` of the same
specification therefore does not report the package as already installed:
it runs the full Builder fetch/configure/build/install sequence a second
time (eight Builder events in total across the two calls). -/
theorem install_twice_rebuilds :
    CGetPrefix.install confPosix 20 (.build pbZ) false false none false true false stEmpty =
      .ok ("Successfully installed zlib", c1s1) ∧
    fsExists c1s1.fs (CGetPrefix.get_private_path confPosix ++ [pbZ.to_fname]) = false ∧
    CGetPrefix.install confPosix 20 (.build pbZ) false false none false true false c1s1 =
      .ok ("Successfully installed zlib", c1s2) ∧
    (c1s2.trace.filter Ev.isBuilderEv).length = 8 := by
  refine ⟨by decide, by decide, by decide, by decide⟩

/-- The store with a completed, linked entry for `pbZ`: its `install`
tree holds one library file, published into the prefix as a symlink. -/
def stLinked : St :=
  { fs := [(["p"], .dir), (["p", "cget"], .dir),
           (["p", "cget", pbZ.to_fname], .dir),
           (["p", "cget", pbZ.to_fname, "install"], .dir),
           (["p", "cget", pbZ.to_fname, "install", "lib"], .dir),
           (["p", "cget", pbZ.to_fname, "install", "lib", "libz.a"], .file "zz"),
           (["p", "lib"], .dir),
           (["p", "lib", "libz.a"],
            .symlink (["p", "cget", pbZ.to_fname] ++ ["install", "lib", "libz.a"]))],
    trace := [] }

/-- Claim C2 (code bug): `unlink` with `delete` unset raises on every
linked entry, in both composition modes, because the source calls
`get_unlink_directory()` without its required argument (a `TypeError`);
the entry is never renamed to an unlinked marker, so the unlink/link
round trip the claim describes cannot be executed at all. -/
theorem unlink_nodelete_raises :
    CGetPrefix.unlink confPosix 20 (.build pbZ) false stLinked = .error .typeError ∧
    CGetPrefix.unlink confCopy 20 (.build pbZ) false stLinked = .error .typeError := by
  refine ⟨by decide, by decide⟩

/-- A second concrete package (the dependent `liba`, recorded against
`pbZ` through the store's dependency-record layout). -/
def psA : PackageSource :=
  { name := some "liba", url := some "https://x/a.tar.gz" }

/-- The build request for `psA`. -/
def pbA : PackageBuild :=
  { pkg_src := .src psA }

/-- A store holding linked entries for both `pbZ` and its dependent
`pbA`, with a dependency-edge marker recorded for the edge
`pbA requires pbZ` in `pbZ`'s dependency-record directory. -/
def stAB : St :=
  { fs := [(["p"], .dir), (["p", "cget"], .dir),
           (["p", "cget", pbZ.to_fname], .dir),
           (["p", "cget", pbZ.to_fname, "install"], .dir),
           (["p", "cget", pbZ.to_fname, ".depend"], .dir),
           (["p", "cget", pbZ.to_fname, ".depend", pbA.to_fname], .file pbA.to_fname),
           (["p", "cget", pbA.to_fname], .dir),
           (["p", "cget", pbA.to_fname, "install"], .dir)],
    trace := [] }

/-- A store whose entry for `pbZ` carries the `unlink` child directory
that `link` looks for (the marker `link` expects, although `unlink` never
produces it: it renames to `.unlink`). -/
def stZMark : St :=
  { fs := [(["p"], .dir), (["p", "cget"], .dir),
           (["p", "cget", pbZ.to_fname], .dir),
           (["p", "cget", pbZ.to_fname, "unlink"], .dir),
           (["p", "cget", pbZ.to_fname, "unlink", "install"], .dir)],
    trace := [] }

/-- Claim C3 (code bug): the cascading-relink scenario cannot be
executed.  Unlinking the dependency `pbZ` raises `TypeError` (the
`get_unlink_directory()` call of `unlink` lacks its required argument),
so no entry ever reaches the unlinked state this way; on a store entry
that does carry the `unlink` marker directory `link` itself raises an
`OSError` (it renames `pkg_dir/unlink` onto the non-empty `pkg_dir`);
and on an entry without the marker `link` returns with the state
untouched — its dependency-cascade loop iterates over the children of a
directory that does not exist, and its body would in any case call the
undefined method `get_unlink_deps_directory` (an `AttributeError`).  No
execution path relinks a recorded dependent. -/
theorem cascade_relink_broken :
    CGetPrefix.unlink confPosix 20 (.build pbZ) false stAB = .error .typeError ∧
    CGetPrefix.link confPosix 20 (.build pbZ) stZMark = .error .oserror ∧
    CGetPrefix.link confPosix 20 (.build pbZ) stAB = .ok ((), stAB) := by
  refine ⟨by decide, by decide, by decide⟩

/-- Claim C9 (code bug): `list` with no package argument never
enumerates anything, on any store: the reordered `_list_files` first
calls `self.parse_pkg_src(pkg)` even when `pkg` is `None`, and that call
raises (`parse_alias(None)` invokes `None.find`) before the
`if pkg is None` enumeration branch can be reached. -/
theorem list_none_raises (C : Conf) (fs : Fs) (fuel : Nat)
    (recursive top : Bool) :
    CGetPrefix.list C fs (fuel + 1) none recursive top = .error .attributeError := rfl

theorem append_singleton_ne_self (a : FPath) (x : String) : a ++ [x] ≠ a := by
  intro h
  have hl := congrArg List.length h
  simp at hl

theorem append_singleton_ne (a : FPath) (x y : String) (h : x ≠ y) :
    a ++ [x] ≠ a ++ [y] := by
  intro hq
  have hd := congrArg (List.drop a.length) hq
  rw [List.drop_left, List.drop_left] at hd
  exact h (by injection hd)

/-- Claim C4: `ignore` creates the marker entry and reports success
exactly when no store entry for the identity exists; on an existing entry
it reports already-installed and leaves the state untouched; and a
subsequent `install` of the same specification treats the ignored entry
as already present, reporting already-installed without any Builder
invocation and without touching the state. -/
theorem ignore_then_install_ok (C : Conf) (sE sF : St) (n : Nat) (fsm : Fs)
    (pb : PackageBuild) (ps : PackageSource)
    (h1 : pb.pkg_src = .src ps) (h2 : ps.recipe = none) (h3 : pb.cmake = none)
    (h4 : pb.parent = none) :
    (fsExists sE.fs (CGetPrefix.get_private_path C ++ [pb.to_fname]) = true →
      CGetPrefix.ignore C (n + 1) (.build pb) sE =
        .ok ("Package " ++ pb.to_name ++ " already installed", sE)) ∧
    (fsFind sF.fs (CGetPrefix.get_private_path C ++ [pb.to_fname]) = none →
     fsFind sF.fs ((CGetPrefix.get_private_path C ++ [pb.to_fname]) ++ ["ignore"]) = none →
     fsFind sF.fs ((CGetPrefix.get_private_path C ++ [pb.to_fname]) ++ ["unlink"]) = none →
     mkdirpFs sF.fs [] (CGetPrefix.get_private_path C ++ [pb.to_fname]) = .ok fsm →
      CGetPrefix.ignore C (n + 1) (.build pb) sF =
        .ok ("Ignore package " ++ pb.to_name,
          ⟨fsSet fsm ((CGetPrefix.get_private_path C ++ [pb.to_fname]) ++ ["ignore"])
             (.file "ignore"), sF.trace⟩) ∧
      CGetPrefix.install C (n + 2) (.build pb) false false none false true false
          ⟨fsSet fsm ((CGetPrefix.get_private_path C ++ [pb.to_fname]) ++ ["ignore"])
             (.file "ignore"), sF.trace⟩ =
        .ok ("Package " ++ pb.to_name ++ " already installed",
          ⟨fsSet fsm ((CGetPrefix.get_private_path C ++ [pb.to_fname]) ++ ["ignore"])
             (.file "ignore"), sF.trace⟩)) := by
  constructor
  · intro hex
    have hparse := parse_pkg_build_resolved C sE.fs n pb ps none false h1 h2 h3
    simp only [CGetPrefix.ignore, M.bind_app, getFs_app, liftE_app, hparse, hex,
      Bool.not_true, Bool.false_eq_true, if_false, M.pure_app, ite_false]
  · intro hf hi hu hmk
    have hparse := parse_pkg_build_resolved C sF.fs n pb ps none false h1 h2 h3
    have hfex : fsExists sF.fs (CGetPrefix.get_private_path C ++ [pb.to_fname]) = false := by
      unfold fsExists
      rw [hf]
      rfl
    have hfig : fsFind fsm ((CGetPrefix.get_private_path C ++ [pb.to_fname]) ++ ["ignore"]) = none := by
      rcases mkdirp_find _ sF.fs [] fsm hmk
          ((CGetPrefix.get_private_path C ++ [pb.to_fname]) ++ ["ignore"]) with hq | ⟨_, _, hq3⟩
      · rw [hq, hi]
      · exfalso
        simp only [List.length_append, List.length_cons, List.length_nil] at hq3
        omega
    have hpdne : CGetPrefix.get_private_path C ++ [pb.to_fname] ≠ [] := by
      simp [CGetPrefix.get_private_path]
    constructor
    · simp only [CGetPrefix.ignore, M.bind_app, getFs_app, liftE_app, hparse, hfex,
        Bool.not_false, if_true, ite_true, mkfileM, mkdirM, hmk, setFs_app, hfig,
        M.pure_app]
      simp only [Bool.false_eq_true, if_false, ite_false, setFs_app, M.bind_app,
        M.pure_app, hfig]
    · have hpd_dir : fsIsDir (fsSet fsm ((CGetPrefix.get_private_path C ++ [pb.to_fname]) ++ ["ignore"]) (.file "ignore"))
          (CGetPrefix.get_private_path C ++ [pb.to_fname]) = true := by
        have hne : CGetPrefix.get_private_path C ++ [pb.to_fname] ≠
            (CGetPrefix.get_private_path C ++ [pb.to_fname]) ++ ["ignore"] :=
          fun hx => append_singleton_ne_self _ "ignore" hx.symm
        rw [fsIsDir, fsSet_find_ne _ _ _ _ hne]
        rcases mkdirp_target _ sF.fs [] fsm hmk with hq | hq
        · exact absurd hq hpdne
        · rw [List.nil_append] at hq
          rw [hq]
      have hul_dir : fsIsDir (fsSet fsm ((CGetPrefix.get_private_path C ++ [pb.to_fname]) ++ ["ignore"]) (.file "ignore"))
          ((CGetPrefix.get_private_path C ++ [pb.to_fname]) ++ ["unlink"]) = false := by
        have hne : (CGetPrefix.get_private_path C ++ [pb.to_fname]) ++ ["unlink"] ≠
            (CGetPrefix.get_private_path C ++ [pb.to_fname]) ++ ["ignore"] :=
          append_singleton_ne _ _ _ (by decide)
        rw [fsIsDir, fsSet_find_ne _ _ _ _ hne]
        rcases mkdirp_find _ sF.fs [] fsm hmk
            ((CGetPrefix.get_private_path C ++ [pb.to_fname]) ++ ["unlink"]) with hq | ⟨_, _, hq3⟩
        · rw [hq, hu]
        · exfalso
          simp only [List.length_append, List.length_cons, List.length_nil] at hq3
          omega
      exact install_already_aux C _ n pb ps h1 h2 h3 h4 hpd_dir hul_dir

/-- A fresh store: only the prefix directory exists. -/
def stFresh : St :=
  { fs := [(["p"], .dir)], trace := [] }

/-- The filesystem after `os.makedirs` has created the store entry
directory for `pbZ` inside `stFresh`. -/
def c4fsm : Fs :=
  [(["p", "cget", pbZ.to_fname], .dir), (["p", "cget"], .dir), (["p"], .dir)]

/-- The filesystem after `ignore` has written the marker entry. -/
def c4fsIgnored : Fs :=
  fsSet c4fsm ((CGetPrefix.get_private_path confPosix ++ [pbZ.to_fname]) ++ ["ignore"])
    (.file "ignore")

/-- Witness for `ignore_then_install_ok`: on the fresh store `ignore`
creates the marker entry and reports success, `ignore` on the existing
partial entry reports already-installed, and the subsequent `install`
skips the Builder. -/
theorem ignore_then_install_ok_witness :
    CGetPrefix.ignore confPosix 4 (.build pbZ) stPartial =
      .ok ("Package " ++ pbZ.to_name ++ " already installed", stPartial) ∧
    CGetPrefix.ignore confPosix 4 (.build pbZ) stFresh =
      .ok ("Ignore package " ++ pbZ.to_name, ⟨c4fsIgnored, []⟩) ∧
    CGetPrefix.install confPosix 5 (.build pbZ) false false none false true false
        ⟨c4fsIgnored, []⟩ =
      .ok ("Package " ++ pbZ.to_name ++ " already installed", ⟨c4fsIgnored, []⟩) := by
  have h := ignore_then_install_ok confPosix stPartial stFresh 3 c4fsm pbZ psZ
    rfl rfl rfl rfl
  exact ⟨h.1 (by decide),
    (h.2 (by decide) (by decide) (by decide) (by decide)).1,
    (h.2 (by decide) (by decide) (by decide) (by decide)).2⟩

/-- Claim C5: a raw token with no scheme marker that matches neither a
local path nor a recipe resolves to a synthesized github archive url:
`foo/bar` gives the archive of owner `foo`, repository `bar` at ref
`HEAD`; `foo/bar@v1.2` substitutes `v1.2` for the ref segment; and the
bare `mylib@r1` doubles the repository name into the owner position. -/
theorem github_shorthand_urls (C : Conf) (fs : Fs)
    (hf1 : fsExists fs (C.cwd ++ ["foo", "bar"]) = false)
    (hr1 : fsExists fs (CGetPrefix.get_public_path C ++ ["recipes", "foo", "bar"]) = false)
    (hf2 : fsExists fs (C.cwd ++ ["foo", "bar@v1.2"]) = false)
    (hr2 : fsExists fs (CGetPrefix.get_public_path C ++ ["recipes", "foo", "bar", "v1.2"]) = false)
    (hf3 : fsExists fs (C.cwd ++ ["mylib@r1"]) = false)
    (hr3 : fsExists fs (CGetPrefix.get_public_path C ++ ["recipes", "mylib", "r1"]) = false) :
    CGetPrefix.parse_pkg_src C fs (some (.str "foo/bar")) none false =
      .ok { name := some "foo/bar",
            url := some "https://github.com/foo/bar/archive/HEAD.tar.gz" } ∧
    CGetPrefix.parse_pkg_src C fs (some (.str "foo/bar@v1.2")) none false =
      .ok { name := some "foo/bar",
            url := some "https://github.com/foo/bar/archive/v1.2.tar.gz" } ∧
    CGetPrefix.parse_pkg_src C fs (some (.str "mylib@r1")) none false =
      .ok { name := some "mylib",
            url := some "https://github.com/mylib/mylib/archive/r1.tar.gz" } := by
  refine ⟨?_, ?_, ?_⟩
  · have ha : parse_alias "foo/bar" = (none, "foo/bar") := by decide
    have hc : strContains "foo/bar" "://" = false := by decide
    have hst : strStarts "foo/bar" "/" = false := by decide
    have hpa : pathOfString "foo/bar" = ["foo", "bar"] := by decide
    have hpn : parse_src_name "foo/bar" none = ("foo/bar", none) := by decide
    have hgh : CGetPrefix.parse_src_github none "foo/bar" =
        { name := some "foo/bar",
          url := some "https://github.com/foo/bar/archive/HEAD.tar.gz" } := by decide
    simp only [CGetPrefix.parse_pkg_src, CGetPrefix.parse_pkg_src_str, ha, hc,
      Bool.not_false, if_true, ite_true, CGetPrefix.parse_src_file, actual_path,
      hst, hpa, Bool.false_eq_true, if_false, ite_false, Option.getD]
    rw [if_neg (by simp [hf1])]
    simp only [CGetPrefix.parse_src_recipe, CGetPrefix.get_recipe_paths, hpn,
      List.reverse_singleton, List.foldr, List.append_nil]
    rw [hpa, if_neg (by simpa using hr1)]
    rw [hgh]
  · have ha : parse_alias "foo/bar@v1.2" = (none, "foo/bar@v1.2") := by decide
    have hc : strContains "foo/bar@v1.2" "://" = false := by decide
    have hst : strStarts "foo/bar@v1.2" "/" = false := by decide
    have hpa : pathOfString "foo/bar@v1.2" = ["foo", "bar@v1.2"] := by decide
    have hpn : parse_src_name "foo/bar@v1.2" none = ("foo/bar", some "v1.2") := by decide
    have hpb : pathOfString "foo/bar" = ["foo", "bar"] := by decide
    have hpv : pathOfString "v1.2" = ["v1.2"] := by decide
    have hgh : CGetPrefix.parse_src_github none "foo/bar@v1.2" =
        { name := some "foo/bar",
          url := some "https://github.com/foo/bar/archive/v1.2.tar.gz" } := by decide
    simp only [CGetPrefix.parse_pkg_src, CGetPrefix.parse_pkg_src_str, ha, hc,
      Bool.not_false, if_true, ite_true, CGetPrefix.parse_src_file, actual_path,
      hst, hpa, Bool.false_eq_true, if_false, ite_false, Option.getD]
    rw [if_neg (by simp [hf2])]
    simp only [CGetPrefix.parse_src_recipe, CGetPrefix.get_recipe_paths, hpn,
      List.reverse_singleton, List.foldr]
    rw [hpb, hpv, if_neg (by simpa [List.append_assoc] using hr2)]
    rw [hgh]
  · have ha : parse_alias "mylib@r1" = (none, "mylib@r1") := by decide
    have hc : strContains "mylib@r1" "://" = false := by decide
    have hst : strStarts "mylib@r1" "/" = false := by decide
    have hpa : pathOfString "mylib@r1" = ["mylib@r1"] := by decide
    have hpn : parse_src_name "mylib@r1" none = ("mylib", some "r1") := by decide
    have hpb : pathOfString "mylib" = ["mylib"] := by decide
    have hpv : pathOfString "r1" = ["r1"] := by decide
    have hgh : CGetPrefix.parse_src_github none "mylib@r1" =
        { name := some "mylib",
          url := some "https://github.com/mylib/mylib/archive/r1.tar.gz" } := by decide
    simp only [CGetPrefix.parse_pkg_src, CGetPrefix.parse_pkg_src_str, ha, hc,
      Bool.not_false, if_true, ite_true, CGetPrefix.parse_src_file, actual_path,
      hst, hpa, Bool.false_eq_true, if_false, ite_false, Option.getD]
    rw [if_neg (by simp [hf3])]
    simp only [CGetPrefix.parse_src_recipe, CGetPrefix.get_recipe_paths, hpn,
      List.reverse_singleton, List.foldr]
    rw [hpb, hpv, if_neg (by simpa [List.append_assoc] using hr3)]
    rw [hgh]

/-- Witness for `github_shorthand_urls`: the empty store matches no local
path and no recipe, so all three tokens resolve to github archive urls. -/
theorem github_shorthand_urls_witness :
    CGetPrefix.parse_pkg_src confPosix [] (some (.str "foo/bar")) none false =
      .ok { name := some "foo/bar",
            url := some "https://github.com/foo/bar/archive/HEAD.tar.gz" } ∧
    CGetPrefix.parse_pkg_src confPosix [] (some (.str "foo/bar@v1.2")) none false =
      .ok { name := some "foo/bar",
            url := some "https://github.com/foo/bar/archive/v1.2.tar.gz" } ∧
    CGetPrefix.parse_pkg_src confPosix [] (some (.str "mylib@r1")) none false =
      .ok { name := some "mylib",
            url := some "https://github.com/mylib/mylib/archive/r1.tar.gz" } :=
  github_shorthand_urls confPosix [] (by decide) (by decide) (by decide) (by decide)
    (by decide) (by decide)

/-- The source directory of an in-progress build of `pbZ`. -/
def c6src : FPath :=
  ["p", "cget", pbZ.to_fname, "src"]

/-- The requirements line for the dependency `depA/depA`, optionally
marked test-only or build-only. -/
def c6reqLine (dt db : Bool) : String :=
  "depA/depA" ++ (if dt then " --test" else "") ++ (if db then " --build" else "")

/-- The dependency of the requirements file, resolved the way
`install_deps` resolves it and tagged with its parent `pbZ`. -/
def c6depResolved : PackageBuild :=
  match parse_pkg_build confWin [] 20
      (.build ((parse_pkg_build_tokens ["depA/depA"]).of pbZ)) (some c6src) false with
  | .ok p => p
  | .error _ => pbZ

/-- The store during the build of `pbZ`: its source directory with the
requirements file, and an already-present entry for the dependency. -/
def c6fs (dt db : Bool) : Fs :=
  [(["p"], .dir), (["p", "cget"], .dir), (c6src, .dir),
   (c6src ++ ["requirements.txt"], .file (c6reqLine dt db)),
   (["p", "cget", c6depResolved.to_fname], .dir)]

/-- Running `install_deps` for `pbZ` on the Windows configuration with
the given dependency flags and testing switches. -/
def c6run (dt db t ta : Bool) : Except Err (Unit × St) :=
  CGetPrefix.install_deps confWin 20 pbZ c6src t ta none false false
    ⟨c6fs dt db, []⟩

/-- Whether the run succeeded. -/
def c6ok (dt db t ta : Bool) : Bool :=
  match c6run dt db t ta with
  | .ok _ => true
  | .error _ => false

/-- The final state of the run. -/
def c6st (dt db t ta : Bool) : St :=
  match c6run dt db t ta with
  | .ok (_, s) => s
  | .error _ => ⟨[], []⟩

/-- The dependency-record directory that `write_parent` uses for the
dependency's fname. -/
def c6dd : FPath :=
  match CGetPrefix.get_deps_directory confWin (c6fs false false) 20
      (.str c6depResolved.to_fname) with
  | .ok d => d
  | .error _ => []

/-- Counterexample to claim C6 as stated: the claim asserts that for a
dependency marked test-only the recursive install is invoked with
`track=False`.  Here the requirements list one test-only dependency and
testing is disabled: `install_deps` returns with the state — filesystem
and invocation trace — completely unchanged.  No recursive install is
invoked at all (the `installable` filter skips the dependency before the
`track` argument is ever computed). -/
theorem test_dep_skipped_not_invoked :
    CGetPrefix.install_deps confWin 20 pbZ c6src false false none false false
        ⟨c6fs true false, []⟩ =
      .ok ((), ⟨c6fs true false, []⟩) := by decide

set_option maxRecDepth 100000 in
/-- Claim C6 as amended: for every combination of the dependency's
test-only/build-only marks and of the testing switches, `install_deps`
invokes the recursive install exactly for the installable dependencies
(a test-only dependency is skipped whenever testing is disabled), every
invocation carries `track = false` precisely when the dependency is
test-only or build-only, and the dependency-edge marker is written
precisely for the tracked invocations. -/
theorem install_deps_track_rule (dt db t ta : Bool) :
    c6ok dt db t ta = true ∧
    (c6st dt db t ta).trace =
      (if (!dt || (dt == (t || ta))) = true
       then [Ev.installCall { c6depResolved with test := dt, build := db } (!(dt || db))]
       else []) ∧
    fsFind (c6st dt db t ta).fs (c6dd ++ [pbZ.to_fname]) =
      (if ((!dt || (dt == (t || ta))) && !(dt || db)) = true
       then some (.file pbZ.to_fname)
       else none) := by
  revert dt db t ta
  decide

/-- A concrete recipe directory for the package `mylib`. -/
def c7rdir : FPath :=
  ["p", "etc", "cget", "recipes", "mylib"]

/-- The recipe's files: `package.txt` names the build `rname` with two
defines and a variant, and a sibling `requirements.txt` exists. -/
def c7fs : Fs :=
  [(["p"], .dir), (c7rdir, .dir),
   (c7rdir ++ ["package.txt"],
    .file "rname,foo/bar@v1 -Dkey=rv -Dother=x --variant Debug"),
   (c7rdir ++ ["requirements.txt"], .file "depA/depA")]

/-- The same recipe directory with `package.txt` missing. -/
def c7fsNoPkg : Fs :=
  [(["p"], .dir), (c7rdir, .dir)]

/-- A caller-supplied build for the recipe, with the given name, defines,
variant and cmake override. -/
def c7caller (nm : Option String) (dfs : List (String × String))
    (vr cm : Option String) : PackageBuild :=
  { pkg_src := .src { name := nm, url := none, recipe := some c7rdir },
    define := dfs, variant := vr, cmake := cm }

/-- The name carried by the result of expanding the recipe for the given
caller argument. -/
def c7name (pkg : Option FRArg) : Option String :=
  match from_recipe confPosix c7fs 20 c7rdir pkg none with
  | .ok p => match p.pkg_src with
             | .src ps => ps.name
             | .tok _ => none
  | .error _ => none

/-- Counterexample to claim C7 as stated: the claim says the resulting
name is preserved from the caller if the caller supplied one, else taken
from the recipe.  The recipe itself carries the name `rname`, yet for a
caller-supplied `PackageBuild` whose name is absent the result's name is
`none`: `from_recipe` overwrites the recipe's name with the caller's
name unconditionally (`p.pkg_src.name = pkg.pkg_src.name`), so the
recipe's name is never taken. -/
theorem recipe_name_not_preserved :
    c7name none = some "rname" ∧
    c7name (some (.build (c7caller none [("key", "cv")] none none))) = none := by
  refine ⟨by decide, by decide⟩

set_option maxRecDepth 100000 in
/-- Claim C7 as amended: expanding a recipe for a caller-supplied
`PackageBuild` fails with a `ConfigurationError` when `package.txt` is
absent; otherwise it yields a build whose recipe pointer is cleared,
whose requirements default to the sibling `requirements.txt`, whose
options equal the recipe's options overridden field-by-field by the
caller's (caller defines win per key, the caller's variant and cmake win
when supplied), and whose name is the caller's name even when the caller
supplied none (the recipe's own name is overwritten unconditionally). -/
theorem from_recipe_merge_ok (nm : Option String) (dfs : List (String × String))
    (vr cm : Option String) :
    from_recipe confPosix c7fs 20 c7rdir (some (.build (c7caller nm dfs vr cm))) none =
      .ok { pkg_src := .src { name := nm,
                              url := some "https://github.com/foo/bar/archive/v1.tar.gz" },
            define := mergeDefines [("key", "rv"), ("other", "x")] dfs,
            variant := Option.or vr (some "Debug"),
            cmake := cm,
            requirements := some (c7rdir ++ ["requirements.txt"]) } ∧
    from_recipe confPosix c7fsNoPkg 20 c7rdir (some (.build (c7caller nm dfs vr cm)))
        none = .error .configurationError := by
  constructor
  · have he : fsExists c7fs (c7rdir ++ ["package.txt"]) = true := by decide
    have hrq : fsExists c7fs (c7rdir ++ ["requirements.txt"]) = true := by decide
    have hff : from_file confPosix c7fs 19 (some (c7rdir ++ ["package.txt"])) none true =
        .ok [{ pkg_src := .src { name := some "rname",
                                 url := some "https://github.com/foo/bar/archive/v1.tar.gz" },
               define := [("key", "rv"), ("other", "x")],
               variant := some "Debug" }] := by decide
    simp only [from_recipe, he, if_true, ite_true, hff, exceptBind_ok, hrq,
      setSrcRecipeNone, setSrcName, c7caller, exceptPure, PackageBuild.merge,
      mergeDefines, Option.or_none, Bool.or_false, Bool.false_or]
    rfl
  · have he : fsExists c7fsNoPkg (c7rdir ++ ["package.txt"]) = false := by decide
    simp only [from_recipe, he, Bool.false_eq_true, if_false, ite_false]

theorem fsSet_noop (fs : Fs) (p : FPath) (v : FsNode) (h : fsFind fs p = some v) :
    fsSet fs p v = fs := by
  unfold fsSet
  rw [if_pos h]

theorem mkfileM_ok (d : FPath) (nm content : String) (s s1 : St)
    (h : mkfileM d nm content s = .ok ((), s1)) :
    ∃ base : Fs,
      (∀ q : FPath, fsFind base q = fsFind s.fs q ∨
        (fsFind s.fs q = none ∧ fsFind base q = some FsNode.dir ∧
          q.length ≤ d.length)) ∧
      (d = [] ∨ (fsFind base d).isSome = true) ∧
      s1 = ⟨fsSet base (d ++ [nm]) (.file content), s.trace⟩ := by
  unfold mkfileM mkdirM at h
  simp only [M.bind_app, getFs_app] at h
  by_cases hex : fsExists s.fs d = true
  · simp only [hex, if_true, ite_true, M.pure_app] at h
    refine ⟨s.fs, fun q => Or.inl rfl, Or.inr (by unfold fsExists at hex; exact hex), ?_⟩
    cases hfd : fsFind s.fs (d ++ [nm]) with
    | none =>
      simp only [hfd, setFs_app] at h
      cases h
      rfl
    | some nd =>
      cases nd with
      | dir => simp [hfd, M.throw] at h
      | file c =>
        simp only [hfd, setFs_app] at h
        cases h
        rfl
      | symlink t =>
        simp only [hfd, setFs_app] at h
        cases h
        rfl
  · simp only [hex, Bool.false_eq_true, if_false, ite_false] at h
    cases hmk : mkdirpFs s.fs [] d with
    | error e => simp [hmk, M.throw] at h
    | ok fsm =>
      simp only [hmk, M.bind_app, setFs_app, getFs_app] at h
      refine ⟨fsm, ?_, ?_, ?_⟩
      · intro q
        rcases mkdirp_find d s.fs [] fsm hmk q with hq | ⟨hq1, hq2, hq3⟩
        · exact Or.inl hq
        · exact Or.inr ⟨hq1, hq2, by simpa using hq3⟩
      · rcases mkdirp_target d s.fs [] fsm hmk with hq | hq
        · exact Or.inl hq
        · right
          rw [List.nil_append] at hq
          rw [hq]
          rfl
      · cases hfd : fsFind fsm (d ++ [nm]) with
        | none =>
          simp only [hfd, setFs_app] at h
          cases h
          rfl
        | some nd =>
          cases nd with
          | dir => simp [hfd, M.throw] at h
          | file c =>
            simp only [hfd, setFs_app] at h
            cases h
            rfl
          | symlink t =>
            simp only [hfd, setFs_app] at h
            cases h
            rfl

theorem gdd_shape (C : Conf) (fs : Fs) (k : Nat) (a : PkgArg) (dd : FPath)
    (h : CGetPrefix.get_deps_directory C fs k a = .ok dd) :
    ∃ d : FPath, dd = d ++ [".depend"] := by
  unfold CGetPrefix.get_deps_directory at h
  cases hg : CGetPrefix.get_package_directory C fs k a with
  | ok dv =>
    rw [hg, exceptBind_ok] at h
    exact ⟨dv, by cases h; rfl⟩
  | error e =>
    rw [hg, exceptBind_err] at h
    cases h

/-- Claim C8: recording a dependency edge is additive and idempotent.
When `write_parent` has recorded the edge of `pb` (parent label `par`)
once, reaching state `s1`, recording it again is a no-op: the second call
returns the state `s1` itself.  Exactly one marker file (named after the
parent, in the dependency-record directory the code derives from the
build's fname) exists in the result, and the first call never removed or
altered any other entry of the filesystem — in particular no previously
recorded edge.  The stability hypotheses pin the dependency-record
directory across the two calls, ruling out stores in which the fname
token happens to resolve differently after the first write. -/
theorem write_parent_idempotent_additive (C : Conf) (n : Nat) (pb : PackageBuild)
    (par : String) (s s1 : St) (dd : FPath)
    (hpar : pb.parent = some par)
    (h0 : CGetPrefix.get_deps_directory C s.fs n (.str pb.to_fname) = .ok dd)
    (h1 : CGetPrefix.write_parent C n pb true s = .ok ((), s1))
    (h2 : CGetPrefix.get_deps_directory C s1.fs n (.str pb.to_fname) = .ok dd) :
    CGetPrefix.write_parent C n pb true s1 = .ok ((), s1) ∧
    fsFind s1.fs (dd ++ [par]) = some (.file par) ∧
    s1.trace = s.trace ∧
    (∀ (q : FPath) (v : FsNode), q ≠ dd ++ [par] →
      fsFind s.fs q = some v → fsFind s1.fs q = some v) := by
  unfold CGetPrefix.write_parent at h1
  rw [hpar] at h1
  simp only [M.bind_app, getFs_app, liftE_app, h0] at h1
  obtain ⟨base, hbase, hdex, hs1⟩ := mkfileM_ok dd par par s s1 h1
  obtain ⟨dv, hdv⟩ := gdd_shape C s.fs n _ dd h0
  have hddne : dd ≠ [] := by
    rw [hdv]
    simp
  have hddmem : (fsFind base dd).isSome = true := by
    rcases hdex with h | h
    · exact absurd h hddne
    · exact h
  have hne1 : dd ≠ dd ++ [par] := fun hx => append_singleton_ne_self dd par hx.symm
  have hfs1 : s1.fs = fsSet base (dd ++ [par]) (.file par) := by
    rw [hs1]
  have htr1 : s1.trace = s.trace := by
    rw [hs1]
  have hmarker : fsFind s1.fs (dd ++ [par]) = some (.file par) := by
    rw [hfs1]
    exact fsSet_find_self base (dd ++ [par]) (.file par)
  refine ⟨?_, hmarker, htr1, ?_⟩
  · unfold CGetPrefix.write_parent
    rw [hpar]
    simp only [M.bind_app, getFs_app, liftE_app, h2]
    unfold mkfileM mkdirM
    simp only [M.bind_app, getFs_app]
    have hex1 : fsExists s1.fs dd = true := by
      unfold fsExists
      rw [hfs1, fsSet_find_ne _ _ _ _ hne1]
      exact hddmem
    simp only [hex1, if_true, ite_true, M.pure_app, hmarker]
    rw [fsSet_noop _ _ _ hmarker]
    show Except.ok ((), { s1 with fs := s1.fs }) = Except.ok ((), s1)
    rfl
  · intro q v hq hv
    rw [hfs1, fsSet_find_ne _ _ _ _ hq]
    rcases hbase q with hb | ⟨hb1, _, _⟩
    · rw [hb]
      exact hv
    · rw [hb1] at hv
      cases hv

/-- The dependency-record directory derived for `c6depResolved`'s fname
on the empty store. -/
def c8dd : FPath :=
  match CGetPrefix.get_deps_directory confWin [] 20 (.str c6depResolved.to_fname) with
  | .ok d => d
  | .error _ => []

/-- The state after recording the edge of `c6depResolved` (parent `pbZ`)
once, starting from the empty store. -/
def c8s1 : St :=
  match CGetPrefix.write_parent confWin 20 c6depResolved true stEmpty with
  | .ok (_, s) => s
  | .error _ => stEmpty

set_option maxRecDepth 400000 in
/-- Witness for `write_parent_idempotent_additive`: recording the same
edge a second time returns the recorded state unchanged, and the single
marker file is present. -/
theorem write_parent_idempotent_additive_witness :
    CGetPrefix.write_parent confWin 20 c6depResolved true c8s1 = .ok ((), c8s1) ∧
    fsFind c8s1.fs (c8dd ++ [pbZ.to_fname]) = some (.file pbZ.to_fname) := by
  have h := write_parent_idempotent_additive confWin 20 c6depResolved pbZ.to_fname
    stEmpty c8s1 c8dd (by decide) (by decide) (by decide) (by decide)
  exact ⟨h.1, h.2.1⟩
